import Mathlib

/-!
Verification of the RegScale analytics core: the rolling z-score drift
detector (`scripts/detect_drift.py`) and the moving-average risk forecaster
with its policy simulator (`services/risk_forecasting.py`).

Modelling conventions:
* Python numbers (ints and floats) are modelled as exact rationals `ℚ`;
  the float square root and division inside the detector are modelled over
  `ℝ` in the statements, while the executable embedding uses the
  equivalent rational comparison (justified by `abs_div_sqrt_gt_iff`).
* Calendar dates are modelled as integers (day ordinals); adding a
  `timedelta(days = k)` is `+ k`.
* Python exceptions are modelled with `Except PyError`; the pure total
  functions are the projections used where no exception can occur.
-/

/-- Exceptions that the Python code under `src/` can raise on these code
paths, plus the two error names that appear only in the specification's
error taxonomy (section 7) and nowhere in the code. -/
inductive PyError where
  /-- Python `ZeroDivisionError` (division by an exact integer zero). -/
  | zeroDivision : PyError
  /-- Python `IndexError` (sequence index out of range, e.g. `history[-1]`
  on an empty list or `dates[i]` past the end). -/
  | indexError : PyError
  /-- Python `ValueError` (e.g. `deque(maxlen = w)` with `w < 0`). -/
  | valueError : PyError
  /-- `EmptyInputError` of the spec's error taxonomy; no such class exists
  in the code. -/
  | emptyInput : PyError
  /-- `InvalidParameterError` of the spec's error taxonomy; no such class
  exists in the code. -/
  | invalidParameter : PyError
  deriving DecidableEq

/-- A drift point as appended by `detect_drift_zscore`:
`drift_points.append((dates[i], values[i], round(z_score, 2)))`.
The reported z-score is `z = zNum / sqrt zVar` (an irrational real in
general, rounded to two decimals only for display); the embedding stores
its exact numerator `zNum = values[i] - mean` and the window's population
variance `zVar`, which determine `round(z, 2)` uniquely. -/
structure DriftPoint where
  date : ℤ
  value : ℚ
  zNum : ℚ
  zVar : ℚ
  deriving DecidableEq

/-- Contents of the bounded deque `buf = deque(maxlen=window)` right after
`buf.append(values[i])` in iteration `i` of `detect_drift_zscore`: the last
`min (i+1) window` of the first `i+1` values. -/
def windowAt (values : List ℚ) (window : ℕ) (i : ℕ) : List ℚ :=
  (values.take (i + 1)).drop (i + 1 - window)

/-- Rolling window mean `mean = sum(buf) / window` in `detect_drift_zscore` (the divisor is
`window`, reached only when the buffer is full). -/
def winMean (values : List ℚ) (window : ℕ) (i : ℕ) : ℚ :=
  (windowAt values window i).sum / window

/-- Rolling window variance `var = sum((x - mean) ** 2 for x in buf) / window` in
`detect_drift_zscore` (population variance, divisor `window`). -/
def winVar (values : List ℚ) (window : ℕ) (i : ℕ) : ℚ :=
  ((windowAt values window i).map (fun x => (x - winMean values window i) ^ 2)).sum / window

/-- Body of the loop of `detect_drift_zscore` at index `i`, without the
date component: `none` when the buffer is not yet full (`continue`), when
`std == 0` (`continue`; over exact reals `sqrt var = 0` iff `var = 0`), or
when `abs(z_score) <= threshold`; otherwise the data of the appended point.
The float test `abs((values[i] - mean) / std) > threshold` is embedded as
the equivalent exact condition
`threshold < 0 ∨ (values[i] - mean) ^ 2 > threshold ^ 2 * var`
(see `abs_div_sqrt_gt_iff` for the equivalence). -/
def emitAt (values : List ℚ) (window : ℕ) (threshold : ℚ) (i : ℕ) : Option (ℚ × ℚ × ℚ) :=
  if i + 1 < window then none
  else
    let v := values.getD i 0
    let mean := winMean values window i
    let var := winVar values window i
    if var = 0 then none
    else if threshold < 0 ∨ (v - mean) ^ 2 > threshold ^ 2 * var then
      some (v, v - mean, var)
    else none

/-- Function `detect_drift_zscore(dates, values, window, threshold)` from
`scripts/detect_drift.py`: scan indices `0 .. len(values) - 1`, keep the
points flagged by the rolling z-score test, pairing each with its date. -/
def detect_drift_zscore (dates : List ℤ) (values : List ℚ) (window : ℕ)
    (threshold : ℚ) : List DriftPoint :=
  (List.range values.length).filterMap fun i =>
    (emitAt values window threshold i).map fun r =>
      ⟨dates.getD i 0, r.1, r.2.1, r.2.2⟩

/-- Variant of `detect_drift_zscore` with its Python failure modes made explicit.
`deque(maxlen=window)` raises `ValueError` for a negative `window`; with
`window = 0` and a nonempty series the first iteration reaches
`mean = sum(buf) / window` and raises `ZeroDivisionError`; with
`window ≥ 1` the only possible exception is the `IndexError` from
`dates[i]` at a flagged index `i ≥ len(dates)`. -/
def detect_drift_zscoreE (dates : List ℤ) (values : List ℚ) (window : ℤ)
    (threshold : ℚ) : Except PyError (List DriftPoint) :=
  if window < 0 then .error .valueError
  else if window = 0 ∧ values ≠ [] then .error .zeroDivision
  else if (List.range values.length).any
      (fun i => (emitAt values window.toNat threshold i).isSome && decide (dates.length ≤ i)) then
    .error .indexError
  else .ok (detect_drift_zscore dates values window.toNat threshold)

/-- Function `simple_moving_average(values, window)` from
`services/risk_forecasting.py`: shrink `window` to `len(values)` when the
series is shorter, then average the last `window` values. (In `ℚ` the
division by a zero effective window yields `0`; the fallible version
`simple_moving_averageE` models the `ZeroDivisionError` instead.) -/
def simple_moving_average (values : List ℚ) (window : ℕ) : ℚ :=
  let w := if values.length < window then values.length else window
  (values.drop (values.length - w)).sum / w

/-- Variant of `simple_moving_average` with its Python failure mode explicit: when the
effective window is `0` (empty series, or `window = 0`), `sum(...) / window`
raises `ZeroDivisionError`. -/
def simple_moving_averageE (values : List ℚ) (window : ℕ) : Except PyError ℚ :=
  let w := if values.length < window then values.length else window
  if w = 0 then .error .zeroDivision
  else .ok ((values.drop (values.length - w)).sum / w)

/-- Python `round` to the nearest integer with ties to even (banker's
rounding), on exact rationals. -/
def roundHalfEven (q : ℚ) : ℤ :=
  if q - ⌊q⌋ = 1 / 2 then (if ⌊q⌋ % 2 = 0 then ⌊q⌋ else ⌊q⌋ + 1)
  else round q

/-- Python `round(x, 3)` on exact rationals. -/
def roundQ3 (x : ℚ) : ℚ := (roundHalfEven (1000 * x) : ℚ) / 1000

/-- Clamp `min(max(x, 0.0), 1.0)` used by the forecaster and the
policy simulator. -/
def qclamp (x : ℚ) : ℚ := min (max x 0) 1

/-- Function `forecast_risk` from `services/risk_forecasting.py`, lines 91-105,
with the externally fetched history supplied as an argument (in the code
`fetch_historical_risk` is an explicitly mock random source) and the
`random.uniform(-0.02, 0.02)` draw of iteration `i` supplied as
`jitter i`:
`scores = [s for _, s in history]`;
`base = simple_moving_average(scores, window=min(7, len(scores)))`;
`last_date = history[-1][0]`; for `i` in `1..horizon` append
`(last_date + i, round(min(max(base + jitter_i, 0.0), 1.0), 3))`. -/
def forecast_risk (history : List (ℤ × ℚ)) (horizon : ℕ) (jitter : ℕ → ℚ) :
    Except PyError (List (ℤ × ℚ)) :=
  let scores := history.map Prod.snd
  match simple_moving_averageE scores (min 7 scores.length) with
  | .error e => .error e
  | .ok base =>
    match history.getLast? with
    | none => .error .indexError
    | some last =>
      .ok ((List.range horizon).map fun (k : ℕ) =>
        ((last.1 + (k : ℤ) + 1 : ℤ), roundQ3 (qclamp (base + jitter (k + 1)))))

/-- Loop of `simulate_policy_change` (`services/risk_forecasting.py`,
lines 126-131), applied to an already-obtained forecast sequence: for each
`(date, risk)` append `(date, round(min(max(adjustment_function(risk), 0.0), 1.0), 3))`. -/
def simulate_policy_change (base_forecasts : List (ℤ × ℚ)) (adjustment_function : ℚ → ℚ) :
    List (ℤ × ℚ) :=
  base_forecasts.map fun p => (p.1, roundQ3 (qclamp (adjustment_function p.2)))

/-- Length of the full trailing buffer: once `window <= i + 1` and `i` is a
valid index, the deque holds exactly `window` values. -/
lemma windowAt_length (values : List ℚ) (window i : ℕ) (h1 : window ≤ i + 1)
    (h2 : i < values.length) : (windowAt values window i).length = window := by
  simp only [windowAt, List.length_drop, List.length_take]
  omega

/-- A population variance is a sum of squares over a nonnegative divisor,
hence nonnegative. -/
lemma winVar_nonneg (values : List ℚ) (window i : ℕ) : 0 ≤ winVar values window i := by
  apply div_nonneg _ (by positivity)
  apply List.sum_nonneg
  intro x hx
  obtain ⟨y, _, rfl⟩ := List.mem_map.1 hx
  positivity

/-- Bridge between the source's floating-point comparison
`abs((v - mean) / sqrt var) > t` and the executable rational comparison
used in `emitAt`: over the reals, for positive variance and positive
threshold, they coincide with `t ^ 2 * var < (v - mean) ^ 2`. -/
lemma abs_div_sqrt_gt_iff (a v t : ℝ) (hv : 0 < v) (ht : 0 < t) :
    t < |a / Real.sqrt v| ↔ t ^ 2 * v < a ^ 2 := by
  have hs : 0 < Real.sqrt v := Real.sqrt_pos.mpr hv
  have hsq : Real.sqrt v ^ 2 = v := Real.sq_sqrt hv.le
  rw [abs_div, abs_of_pos hs, lt_div_iff hs]
  constructor
  · intro h
    have h2 : (t * Real.sqrt v) ^ 2 < |a| ^ 2 := by
      apply pow_lt_pow_left h (by positivity)
      norm_num
    calc t ^ 2 * v = (t * Real.sqrt v) ^ 2 := by rw [mul_pow, hsq]
      _ < |a| ^ 2 := h2
      _ = a ^ 2 := sq_abs a
  · intro h
    by_contra hc
    push_neg at hc
    have h2 : |a| ^ 2 ≤ (t * Real.sqrt v) ^ 2 := by
      apply pow_le_pow_left (abs_nonneg a) hc
    rw [sq_abs, mul_pow, hsq] at h2
    exact absurd h (not_lt.mpr h2)

/-- Characterization of when the loop body of `detect_drift_zscore` emits a
point, phrased with the real z-score `(v - mean) / sqrt var`. -/
lemma emitAt_isSome_iff (values : List ℚ) (window : ℕ) (threshold : ℚ) (i : ℕ)
    (ht : 0 < threshold) :
    (emitAt values window threshold i).isSome ↔
      (window ≤ i + 1 ∧ Real.sqrt (winVar values window i) ≠ 0 ∧
        (threshold : ℝ) <
          |((values.getD i 0 - winMean values window i : ℚ) : ℝ) /
            Real.sqrt (winVar values window i)|) := by
  by_cases hfull : i + 1 < window
  · simp only [emitAt, if_pos hfull, Option.isSome_none, Bool.false_eq_true, false_iff]
    intro hcon
    omega
  · have hw : window ≤ i + 1 := by omega
    by_cases hvar : winVar values window i = 0
    · simp [emitAt, hfull, hvar, Real.sqrt_eq_zero']
    · have hvpos : 0 < winVar values window i :=
        lt_of_le_of_ne (winVar_nonneg values window i) (Ne.symm hvar)
      have hvposR : (0 : ℝ) < (winVar values window i : ℚ) := by exact_mod_cast hvpos
      have hbridge := abs_div_sqrt_gt_iff
        ((values.getD i 0 - winMean values window i : ℚ) : ℝ)
        ((winVar values window i : ℚ) : ℝ) ((threshold : ℚ) : ℝ)
        hvposR (by exact_mod_cast ht)
      by_cases hflag : (values.getD i 0 - winMean values window i) ^ 2 >
          threshold ^ 2 * winVar values window i
    -- wait indentation
      · simp only [emitAt, if_neg hfull, if_neg hvar]
        rw [if_pos (Or.inr hflag)]
        simp only [Option.isSome_some, true_iff]
        refine ⟨hw, ne_of_gt (Real.sqrt_pos.mpr hvposR), hbridge.mpr ?_⟩
        push_cast
        exact_mod_cast hflag
      · have hnor : ¬(threshold < 0 ∨ (values.getD i 0 - winMean values window i) ^ 2 >
            threshold ^ 2 * winVar values window i) := by
          push_neg
          exact ⟨le_of_lt ht, le_of_not_lt hflag⟩
        simp only [emitAt, if_neg hfull, if_neg hvar, if_neg hnor]
        simp only [Option.isSome_none, Bool.false_eq_true, false_iff]
        intro hcon
        apply hflag
        have := hbridge.mp hcon.2.2
        exact_mod_cast this

/-- Every point emitted at index `i` carries exactly `values[i]`, the
deviation `values[i] - mean` of its own window, and that window's
variance. -/
lemma emitAt_eq_some (values : List ℚ) (window : ℕ) (threshold : ℚ) (i : ℕ)
    (r : ℚ × ℚ × ℚ) (h : emitAt values window threshold i = some r) :
    r = (values.getD i 0, values.getD i 0 - winMean values window i, winVar values window i) := by
  simp only [emitAt] at h
  split_ifs at h <;> simp_all

/-- Membership in the detector's output, decomposed by originating
index. -/
lemma mem_detect_iff (dates : List ℤ) (values : List ℚ) (window : ℕ) (threshold : ℚ)
    (p : DriftPoint) :
    p ∈ detect_drift_zscore dates values window threshold ↔
      ∃ i, i < values.length ∧
        emitAt values window threshold i = some (p.value, p.zNum, p.zVar) ∧
        p.date = dates.getD i 0 := by
  simp only [detect_drift_zscore, List.mem_filterMap, List.mem_range, Option.map_eq_some']
  constructor
  · rintro ⟨i, hi, r, hr, rfl⟩
    exact ⟨i, hi, by simpa using hr, rfl⟩
  · rintro ⟨i, hi, hr, hd⟩
    refine ⟨i, hi, (p.value, p.zNum, p.zVar), hr, ?_⟩
    cases p
    simp_all

/-- Over a constant series every full window has variance zero. -/
lemma winVar_eq_zero_of_const (values : List ℚ) (c : ℚ) (window i : ℕ)
    (hconst : ∀ x ∈ values, x = c) (hw : 1 ≤ window) (h1 : window ≤ i + 1)
    (h2 : i < values.length) : winVar values window i = 0 := by
  have hsub : ∀ x ∈ windowAt values window i, x = c := by
    intro x hx
    exact hconst x (List.take_subset _ _ (List.drop_subset _ _ hx))
  have hlen := windowAt_length values window i h1 h2
  have hrep : windowAt values window i = List.replicate window c :=
    List.eq_replicate.2 ⟨hlen, hsub⟩
  have hwQ : (window : ℚ) ≠ 0 := ne_of_gt (Nat.cast_pos.mpr hw)
  have hmean : winMean values window i = c := by
    rw [winMean, hrep, List.sum_replicate, nsmul_eq_mul]
    field_simp
  rw [winVar, hmean, hrep, List.map_replicate]
  simp

/-- A `filterMap` whose partial function succeeds (with the same value) on
fewer inputs yields a sublist. -/
lemma filterMap_sublist_filterMap {α β : Type} (f g : α → Option β) (l : List α)
    (h : ∀ a ∈ l, ∀ b, f a = some b → g a = some b) :
    (l.filterMap f).Sublist (l.filterMap g) := by
  induction l with
  | nil => simp
  | cons a l ih =>
    have ih2 := ih fun x hx b hb => h x (List.mem_cons_of_mem a hx) b hb
    rw [List.filterMap_cons, List.filterMap_cons]
    cases hf : f a with
    | none =>
      cases hg : g a with
      | none => exact ih2
      | some b => exact ih2.cons b
    | some b =>
      rw [h a (List.mem_cons_self a l) b hf]
      exact ih2.cons₂ b

/-- Lowering the threshold (within positive thresholds) preserves every
emitted point unchanged. -/
lemma emitAt_mono (values : List ℚ) (window i : ℕ) (t1 t2 : ℚ) (ht2 : 0 < t2)
    (h12 : t2 ≤ t1) (r : ℚ × ℚ × ℚ) (h : emitAt values window t1 i = some r) :
    emitAt values window t2 i = some r := by
  simp only [emitAt] at h ⊢
  by_cases h1 : i + 1 < window
  · rw [if_pos h1] at h
    exact absurd h (by simp)
  · rw [if_neg h1] at h ⊢
    by_cases h2 : winVar values window i = 0
    · rw [if_pos h2] at h
      exact absurd h (by simp)
    · rw [if_neg h2] at h ⊢
      by_cases h3 : t1 < 0 ∨
          (values.getD i 0 - winMean values window i) ^ 2 > t1 ^ 2 * winVar values window i
      · rw [if_pos h3] at h
        rw [if_pos]
        · exact h
        · right
          rcases h3 with h3 | h3
          · linarith
          · have hvar := winVar_nonneg values window i
            have hsq : t2 ^ 2 * winVar values window i ≤ t1 ^ 2 * winVar values window i :=
              mul_le_mul_of_nonneg_right (pow_le_pow_left ht2.le h12 2) hvar
            linarith
      · rw [if_neg h3] at h
        exact absurd h (by simp)

/-- C1: for every values sequence, date sequence of the same length, window
>= 1 and threshold > 0, `detect_drift_zscore` emits a point for index `i`
iff a full trailing window of `window` values ending at `i` exists, the
population standard deviation `sqrt var` of that window is nonzero, and
`|(values[i] - mean) / sqrt var| > threshold` (strict, so a z-score exactly
at the threshold is not flagged); each emitted point carries `dates[i]`,
`values[i]`, and the exact data `(values[i] - mean, var)` of the reported
rounded z-score `round(z, 2)`. -/
theorem detect_emission_iff_zscore_gt_threshold
    (dates : List ℤ) (values : List ℚ) (window : ℕ) (threshold : ℚ)
    (hlen : dates.length = values.length) (hw : 1 ≤ window) (ht : 0 < threshold) :
    (∀ i, i < values.length →
      ((emitAt values window threshold i).isSome ↔
        (window ≤ i + 1 ∧ Real.sqrt (winVar values window i) ≠ 0 ∧
          (threshold : ℝ) <
            |((values.getD i 0 - winMean values window i : ℚ) : ℝ) /
              Real.sqrt (winVar values window i)|)))
    ∧ (∀ i r, emitAt values window threshold i = some r →
        r = (values.getD i 0, values.getD i 0 - winMean values window i,
          winVar values window i))
    ∧ (∀ p, p ∈ detect_drift_zscore dates values window threshold ↔
        ∃ i, i < values.length ∧
          emitAt values window threshold i = some (p.value, p.zNum, p.zVar) ∧
          p.date = dates.getD i 0) :=
  ⟨fun i _ => emitAt_isSome_iff values window threshold i ht,
   fun i r h => emitAt_eq_some values window threshold i r h,
   fun p => mem_detect_iff dates values window threshold p⟩

/-- C2: for every values sequence shorter than `window`,
`detect_drift_zscore` returns the empty sequence, and in general no point
is ever emitted for any of the first `window - 1` indices. -/
theorem detect_window_floor (dates : List ℤ) (values : List ℚ) (window : ℕ)
    (threshold : ℚ) :
    (values.length < window → detect_drift_zscore dates values window threshold = [])
    ∧ (∀ i, i + 1 < window → emitAt values window threshold i = none) := by
  constructor
  · intro h
    rw [detect_drift_zscore, List.filterMap_eq_nil]
    intro i hi
    rw [List.mem_range] at hi
    have hlt : i + 1 < window := by omega
    simp [emitAt, hlt]
  · intro i hi
    simp [emitAt, hi]

/-- C3: for every constant values sequence, window >= 1 and threshold > 0,
`detect_drift_zscore` returns the empty sequence, and the exception-aware
embedding confirms no error is raised: the zero-variance guard skips each
point before the z-score division is ever evaluated. -/
theorem detect_constant_series_empty (dates : List ℤ) (values : List ℚ)
    (window : ℕ) (threshold : ℚ) (c : ℚ) (hconst : ∀ x ∈ values, x = c)
    (hw : 1 ≤ window) (ht : 0 < threshold) :
    detect_drift_zscore dates values window threshold = []
    ∧ detect_drift_zscoreE dates values (window : ℤ) threshold = .ok [] := by
  have hnone : ∀ i < values.length, emitAt values window threshold i = none := by
    intro i hilen
    by_cases hfull : i + 1 < window
    · simp [emitAt, hfull]
    · have hvar := winVar_eq_zero_of_const values c window i hconst hw (by omega) hilen
      simp [emitAt, hfull, hvar]
  have hdet : detect_drift_zscore dates values window threshold = [] := by
    rw [detect_drift_zscore, List.filterMap_eq_nil]
    intro i hi
    rw [List.mem_range] at hi
    simp [hnone i hi]
  refine ⟨hdet, ?_⟩
  have htn : ((window : ℤ)).toNat = window := Int.toNat_natCast window
  have hany : ((List.range values.length).any
      (fun i => (emitAt values window threshold i).isSome && decide (dates.length ≤ i))) = false := by
    rw [List.any_eq_false]
    intro i hi
    rw [List.mem_range] at hi
    simp [hnone i hi]
  rw [detect_drift_zscoreE, htn]
  rw [if_neg (by omega), if_neg (by omega), if_neg (by simp [hany]), hdet]

/-- C10: raising the threshold can only remove flagged points, never add or
alter them: for `t1 >= t2 > 0` the detector's output at `t1` is a sublist
(subsequence) of its output at `t2`. -/
theorem detect_threshold_monotone (dates : List ℤ) (values : List ℚ) (window : ℕ)
    (t1 t2 : ℚ) (hw : 1 ≤ window) (ht2 : 0 < t2) (h12 : t2 ≤ t1) :
    (detect_drift_zscore dates values window t1).Sublist
      (detect_drift_zscore dates values window t2) := by
  rw [detect_drift_zscore, detect_drift_zscore]
  apply filterMap_sublist_filterMap
  intro i _ p hp
  rw [Option.map_eq_some'] at hp ⊢
  obtain ⟨r, hr, rfl⟩ := hp
  exact ⟨r, emitAt_mono values window i t1 t2 ht2 h12 r hr, rfl⟩

/-- C4: on `values = [5,5,5,5,5,5,5,20]` with `window = 7`,
`threshold = 2.0` and any 8 dates, index 6 is not flagged (its window is
all 5s, variance 0) and the output is exactly one point, for index 7,
whose window is `[5,5,5,5,5,5,20]` with mean `50/7` and `|z| > 2`. -/
theorem detect_concrete_spike_example (dates : List ℤ) (hlen : dates.length = 8) :
    detect_drift_zscore dates [5, 5, 5, 5, 5, 5, 5, 20] 7 2 =
      [⟨dates.getD 7 0, 20, 90 / 7, 1350 / 49⟩]
    ∧ (detect_drift_zscore dates [5, 5, 5, 5, 5, 5, 5, 20] 7 2).length = 1
    ∧ emitAt [5, 5, 5, 5, 5, 5, 5, 20] 7 2 6 = none
    ∧ winVar [5, 5, 5, 5, 5, 5, 5, 20] 7 6 = 0
    ∧ windowAt [5, 5, 5, 5, 5, 5, 5, 20] 7 7 = [5, 5, 5, 5, 5, 5, 20]
    ∧ winMean [5, 5, 5, 5, 5, 5, 5, 20] 7 7 = 50 / 7
    ∧ (2 : ℝ) < |((20 - 50 / 7 : ℚ) : ℝ) / Real.sqrt ((1350 / 49 : ℚ) : ℝ)| := by
  have e0 : ∀ i, i + 1 < 7 → emitAt [5, 5, 5, 5, 5, 5, 5, 20] 7 2 i = none :=
    fun i hi => by simp [emitAt, hi]
  have e6 : emitAt [5, 5, 5, 5, 5, 5, 5, 20] 7 2 6 = none := by
    norm_num [emitAt, winVar, winMean, windowAt]
  have e7 : emitAt [5, 5, 5, 5, 5, 5, 5, 20] 7 2 7 = some (20, 90 / 7, 1350 / 49) := by
    norm_num [emitAt, winVar, winMean, windowAt]
  have hdet : detect_drift_zscore dates [5, 5, 5, 5, 5, 5, 5, 20] 7 2 =
      [⟨dates.getD 7 0, 20, 90 / 7, 1350 / 49⟩] := by
    rw [detect_drift_zscore]
    rw [show List.length [(5 : ℚ), 5, 5, 5, 5, 5, 5, 20] = 8 from rfl]
    rw [show List.range 8 = [0, 1, 2, 3, 4, 5, 6, 7] from by decide]
    simp [List.filterMap_cons, e0 0 (by norm_num), e0 1 (by norm_num), e0 2 (by norm_num),
      e0 3 (by norm_num), e0 4 (by norm_num), e0 5 (by norm_num), e6, e7]
  refine ⟨hdet, by rw [hdet]; rfl, e6, ?_, ?_, ?_, ?_⟩
  · norm_num [winVar, winMean, windowAt]
  · norm_num [windowAt]
  · norm_num [winMean, windowAt]
  · rw [abs_div_sqrt_gt_iff _ _ _ (by norm_num) (by norm_num)]
    norm_num

/-- Banker's rounding of a nonnegative rational is nonnegative. -/
lemma roundHalfEven_nonneg (q : ℚ) (h : 0 ≤ q) : 0 ≤ roundHalfEven q := by
  rw [roundHalfEven]
  have hfl : (0 : ℤ) ≤ ⌊q⌋ := Int.floor_nonneg.mpr h
  split_ifs with h1 h2
  · exact hfl
  · omega
  · rw [round_eq]
    apply Int.floor_nonneg.mpr
    linarith

/-- Banker's rounding never exceeds an integer upper bound of its input. -/
lemma roundHalfEven_le (q : ℚ) (B : ℤ) (h : q ≤ (B : ℚ)) : roundHalfEven q ≤ B := by
  rw [roundHalfEven]
  have hfl : ⌊q⌋ ≤ B := le_of_le_of_eq (Int.floor_le_floor h) (Int.floor_intCast B)
  split_ifs with h1 h2
  · exact hfl
  · have hfq : (⌊q⌋ : ℚ) + 1 / 2 ≤ (B : ℚ) := by linarith
    have hlt : (⌊q⌋ : ℚ) < (B : ℚ) := by linarith
    have : ⌊q⌋ < B := by exact_mod_cast hlt
    omega
  · rw [round_eq]
    have hBf : ⌊(B : ℚ) + 1 / 2⌋ = B := by
      rw [Int.floor_int_add]
      norm_num
    calc ⌊q + 1 / 2⌋ ≤ ⌊(B : ℚ) + 1 / 2⌋ := Int.floor_le_floor (by linarith)
      _ = B := hBf

/-- Rounding to three decimals preserves nonnegativity. -/
lemma roundQ3_nonneg (x : ℚ) (h : 0 ≤ x) : 0 ≤ roundQ3 x := by
  rw [roundQ3]
  have hl : (0 : ℤ) ≤ roundHalfEven (1000 * x) := roundHalfEven_nonneg _ (by linarith)
  apply div_nonneg _ (by norm_num)
  exact_mod_cast hl

/-- Rounding to three decimals preserves the upper bound 1. -/
lemma roundQ3_le_one (x : ℚ) (h : x ≤ 1) : roundQ3 x ≤ 1 := by
  rw [roundQ3]
  have hu : roundHalfEven (1000 * x) ≤ 1000 :=
    roundHalfEven_le _ 1000 (by push_cast; linarith)
  rw [div_le_one (by norm_num)]
  exact_mod_cast hu

/-- The clamp's output is at least 0. -/
lemma qclamp_nonneg (x : ℚ) : 0 ≤ qclamp x :=
  le_min (le_max_right x 0) zero_le_one

/-- The clamp's output is at most 1. -/
lemma qclamp_le_one (x : ℚ) : qclamp x ≤ 1 := min_le_right _ _

/-- On a nonempty series with a positive window, `simple_moving_average`
raises nothing and the fallible and total embeddings agree. -/
lemma smaE_ok (values : List ℚ) (window : ℕ) (hne : values ≠ []) (hw : 1 ≤ window) :
    simple_moving_averageE values window = .ok (simple_moving_average values window) := by
  have hlen : 1 ≤ values.length := List.length_pos.mpr hne
  rw [simple_moving_averageE, simple_moving_average]
  have hnz : ¬ (if values.length < window then values.length else window) = 0 := by
    split_ifs <;> omega
  rw [if_neg hnz]

/-- C5: for every nonempty values sequence and window >= 1,
`simple_moving_average` returns the arithmetic mean of the last
`min window (len values)` values; in particular
`simple_moving_average [3, 5] 7 = 4` (average of the 2 available points,
not a zero-padded average). -/
theorem moving_average_of_last_min_window (values : List ℚ) (window : ℕ)
    (hne : values ≠ []) (hw : 1 ≤ window) :
    simple_moving_average values window =
      (values.drop (values.length - min window values.length)).sum /
        ((min window values.length : ℕ) : ℚ)
    ∧ (values.drop (values.length - min window values.length)).length =
        min window values.length
    ∧ simple_moving_average [3, 5] 7 = 4 := by
  have hmin : (if values.length < window then values.length else window) =
      min window values.length := by
    split_ifs <;> omega
  refine ⟨?_, ?_, ?_⟩
  · rw [simple_moving_average, hmin]
  · rw [List.length_drop]
    have := List.length_pos.mpr hne
    omega
  · norm_num [simple_moving_average]

/-- C6 (amended): `simple_moving_average` on an empty series (any window)
and `forecast_risk` on an empty history (any horizon, any jitter) both
fail, but with Python's `ZeroDivisionError` from the zero effective
window, not with the spec's `EmptyInputError`, which does not exist in the
code. -/
theorem empty_series_division_by_zero (window horizon : ℕ) (jitter : ℕ → ℚ) :
    simple_moving_averageE [] window = .error .zeroDivision
    ∧ forecast_risk [] horizon jitter = .error .zeroDivision := by
  constructor
  · rw [simple_moving_averageE]
    simp only [List.length_nil]
    split_ifs with h1 h2 <;> first | rfl | omega
  · rfl

/-- C6 counterexample: at the spec's own example inputs
(`movingAverage([], window=5)` and `forecast([], horizon=3)`) the code
raises `ZeroDivisionError`, not `EmptyInputError`. -/
theorem empty_input_error_never_raised :
    simple_moving_averageE [] 5 = .error .zeroDivision
    ∧ simple_moving_averageE [] 5 ≠ .error .emptyInput
    ∧ forecast_risk [] 3 (fun _ => 0) = .error .zeroDivision
    ∧ forecast_risk [] 3 (fun _ => 0) ≠ .error .emptyInput :=
  ⟨rfl, fun h => PyError.noConfusion (Except.error.inj h), rfl,
    fun h => PyError.noConfusion (Except.error.inj h)⟩

/-- On a nonempty history `forecast_risk` succeeds, and its output is the
mapped list of jittered, clamped, rounded moving-average forecasts. -/
lemma forecast_risk_ok (history : List (ℤ × ℚ)) (horizon : ℕ) (jitter : ℕ → ℚ)
    (hne : history ≠ []) :
    forecast_risk history horizon jitter =
      .ok ((List.range horizon).map fun (k : ℕ) =>
        (((history.getLast hne).1 + (k : ℤ) + 1 : ℤ),
          roundQ3 (qclamp (simple_moving_average (history.map Prod.snd)
            (min 7 (history.map Prod.snd).length) + jitter (k + 1))))) := by
  have hsne : history.map Prod.snd ≠ [] := by
    simp [List.map_eq_nil, hne]
  have hslen : 1 ≤ (history.map Prod.snd).length := List.length_pos.mpr hsne
  rw [forecast_risk, smaE_ok _ _ hsne (by omega)]
  rw [List.getLast?_eq_getLast history hne]

/-- C8: for every nonempty history, horizon >= 1 and any modelling of the
jitter draws, `forecast_risk` returns exactly `horizon` points; the k-th
(0-based) point's date is the last historical date plus `k + 1` days, and
every predicted value lies in `[0, 1]`. -/
theorem forecast_length_dates_and_unit_range (history : List (ℤ × ℚ)) (horizon : ℕ)
    (jitter : ℕ → ℚ) (hne : history ≠ []) (hh : 1 ≤ horizon) :
    ∃ l : List (ℤ × ℚ), forecast_risk history horizon jitter = .ok l
      ∧ l.length = horizon
      ∧ ∀ k, k < horizon →
          (l.getD k (0, 0)).1 = (history.getLast hne).1 + (k : ℤ) + 1
          ∧ 0 ≤ (l.getD k (0, 0)).2 ∧ (l.getD k (0, 0)).2 ≤ 1 := by
  refine ⟨_, forecast_risk_ok history horizon jitter hne, by simp, ?_⟩
  intro k hk
  have hget : (((List.range horizon).map fun (k : ℕ) =>
      (((history.getLast hne).1 + (k : ℤ) + 1 : ℤ),
        roundQ3 (qclamp (simple_moving_average (history.map Prod.snd)
          (min 7 (history.map Prod.snd).length) + jitter (k + 1))))).getD k (0, 0)) =
      (((history.getLast hne).1 + (k : ℤ) + 1 : ℤ),
        roundQ3 (qclamp (simple_moving_average (history.map Prod.snd)
          (min 7 (history.map Prod.snd).length) + jitter (k + 1)))) := by
    rw [List.getD_eq_getElem _ _ (by simpa using hk)]
    simp
  rw [hget]
  refine ⟨rfl, ?_, ?_⟩
  · exact roundQ3_nonneg _ (qclamp_nonneg _)
  · exact roundQ3_le_one _ (qclamp_le_one _)

/-- C7 (amended): the code performs no parameter validation. With
`window >= 1` the detector returns a normal result for every threshold
(including `threshold <= 0`); the forecaster returns a normal empty result
for `horizon = 0`; `window = 0` on a nonempty series fails with
`ZeroDivisionError` and `window < 0` with `ValueError` — never with the
spec's `InvalidParameterError`, which does not exist in the code. -/
theorem no_parameter_validation_in_code (dates : List ℤ) (values : List ℚ)
    (window : ℕ) (threshold : ℚ) (history : List (ℤ × ℚ)) (jitter : ℕ → ℚ)
    (hw : 1 ≤ window) (hlen : dates.length = values.length) (hne : history ≠ []) :
    detect_drift_zscoreE dates values (window : ℤ) threshold =
      .ok (detect_drift_zscore dates values window threshold)
    ∧ forecast_risk history 0 jitter = .ok []
    ∧ (values ≠ [] → detect_drift_zscoreE dates values 0 threshold = .error .zeroDivision)
    ∧ (∀ w : ℤ, w < 0 → detect_drift_zscoreE dates values w threshold = .error .valueError) := by
  refine ⟨?_, ?_, ?_, ?_⟩
  · have htn : ((window : ℤ)).toNat = window := Int.toNat_natCast window
    have hany : ((List.range values.length).any
        (fun i => (emitAt values window threshold i).isSome && decide (dates.length ≤ i))) =
        false := by
      rw [List.any_eq_false]
      intro i hi
      rw [List.mem_range] at hi
      simp [hlen, Nat.not_le.mpr hi]
    rw [detect_drift_zscoreE, htn]
    rw [if_neg (by omega), if_neg (by omega), if_neg (by simp [hany])]
  · rw [forecast_risk_ok history 0 jitter hne]
    simp
  · intro hvne
    rw [detect_drift_zscoreE]
    rw [if_neg (by omega), if_pos ⟨rfl, hvne⟩]
  · intro w hwneg
    rw [detect_drift_zscoreE, if_pos hwneg]

/-- C7 counterexample: a detector call with `threshold = -1 <= 0` and a
forecaster call with `horizon = 0 < 1` both return normal results instead
of raising `InvalidParameterError`. -/
theorem invalid_parameter_error_never_raised :
    detect_drift_zscoreE [0, 1, 2, 3, 4, 5, 6, 7] [5, 5, 5, 5, 5, 5, 5, 20] 7 (-1) =
      .ok [⟨7, 20, 90 / 7, 1350 / 49⟩]
    ∧ detect_drift_zscoreE [0, 1, 2, 3, 4, 5, 6, 7] [5, 5, 5, 5, 5, 5, 5, 20] 7 (-1) ≠
      .error .invalidParameter
    ∧ forecast_risk [((0 : ℤ), (1 / 2 : ℚ))] 0 (fun _ => 0) = .ok []
    ∧ forecast_risk [((0 : ℤ), (1 / 2 : ℚ))] 0 (fun _ => 0) ≠ .error .invalidParameter := by
  have e0 : ∀ i, i + 1 < 7 → emitAt [5, 5, 5, 5, 5, 5, 5, 20] 7 (-1) i = none :=
    fun i hi => by simp [emitAt, hi]
  have e6 : emitAt [5, 5, 5, 5, 5, 5, 5, 20] 7 (-1) 6 = none := by
    norm_num [emitAt, winVar, winMean, windowAt]
  have e7 : emitAt [5, 5, 5, 5, 5, 5, 5, 20] 7 (-1) 7 = some (20, 90 / 7, 1350 / 49) := by
    norm_num [emitAt, winVar, winMean, windowAt]
  have hdet : detect_drift_zscore [0, 1, 2, 3, 4, 5, 6, 7] [5, 5, 5, 5, 5, 5, 5, 20] 7 (-1) =
      [⟨7, 20, 90 / 7, 1350 / 49⟩] := by
    rw [detect_drift_zscore]
    rw [show List.length [(5 : ℚ), 5, 5, 5, 5, 5, 5, 20] = 8 from rfl]
    rw [show List.range 8 = [0, 1, 2, 3, 4, 5, 6, 7] from by decide]
    simp [List.filterMap_cons, e0 0 (by norm_num), e0 1 (by norm_num), e0 2 (by norm_num),
      e0 3 (by norm_num), e0 4 (by norm_num), e0 5 (by norm_num), e6, e7]
  have hany : ((List.range 8).any
      (fun i => (emitAt [5, 5, 5, 5, 5, 5, 5, 20] 7 (-1) i).isSome &&
        decide (List.length [(0 : ℤ), 1, 2, 3, 4, 5, 6, 7] ≤ i))) = false := by
    rw [List.any_eq_false]
    intro i hi
    rw [List.mem_range] at hi
    simp [Nat.not_le.mpr (show i < 8 from hi)]
  have hE : detect_drift_zscoreE [0, 1, 2, 3, 4, 5, 6, 7] [5, 5, 5, 5, 5, 5, 5, 20] 7 (-1) =
      .ok [⟨7, 20, 90 / 7, 1350 / 49⟩] := by
    rw [detect_drift_zscoreE]
    rw [if_neg (by norm_num), if_neg (by norm_num)]
    rw [show ((7 : ℤ)).toNat = 7 from rfl]
    rw [show List.length [(5 : ℚ), 5, 5, 5, 5, 5, 5, 20] = 8 from rfl]
    rw [if_neg (by rw [hany]; simp), hdet]
  have hF : forecast_risk [((0 : ℤ), (1 / 2 : ℚ))] 0 (fun _ => 0) = .ok [] := rfl
  refine ⟨hE, ?_, hF, ?_⟩
  · intro h
    rw [hE] at h
    exact Except.noConfusion h
  · intro h
    rw [hF] at h
    exact Except.noConfusion h

/-- C9 (amended): `simulate_policy_change` returns a sequence of the same
length, preserving each input point's date in order; the i-th value is
`adjust` applied to the i-th predicted value, clamped to `[0, 1]`, and then
rounded to 3 decimal places — in particular it never leaves `[0, 1]`,
whatever `adjust` returns. -/
theorem simulate_dates_values_and_clamp (pts : List (ℤ × ℚ)) (adjust : ℚ → ℚ) :
    (simulate_policy_change pts adjust).length = pts.length
    ∧ ∀ i, i < pts.length →
        ((simulate_policy_change pts adjust).getD i (0, 0)).1 = (pts.getD i (0, 0)).1
        ∧ ((simulate_policy_change pts adjust).getD i (0, 0)).2 =
            roundQ3 (qclamp (adjust ((pts.getD i (0, 0)).2)))
        ∧ 0 ≤ ((simulate_policy_change pts adjust).getD i (0, 0)).2
        ∧ ((simulate_policy_change pts adjust).getD i (0, 0)).2 ≤ 1 := by
  refine ⟨by simp [simulate_policy_change], ?_⟩
  intro i hi
  have hget : ((simulate_policy_change pts adjust).getD i (0, 0)) =
      ((pts.getD i (0, 0)).1, roundQ3 (qclamp (adjust ((pts.getD i (0, 0)).2)))) := by
    rw [simulate_policy_change]
    rw [List.getD_eq_getElem _ _ (by simpa using hi), List.getD_eq_getElem _ _ hi]
    simp
  rw [hget]
  exact ⟨rfl, rfl, roundQ3_nonneg _ (qclamp_nonneg _), roundQ3_le_one _ (qclamp_le_one _)⟩

/-- C9 counterexample: with the identity adjustment and predicted value
`1/2500 = 0.0004`, the output value is `0`, not the clamp-only value
`0.0004` the claim states: the code rounds to 3 decimals after clamping. -/
theorem simulate_rounds_after_clamping :
    simulate_policy_change [((0 : ℤ), (1 / 2500 : ℚ))] (fun x => x) = [(0, 0)]
    ∧ qclamp ((fun x : ℚ => x) (1 / 2500)) ≠ 0 := by
  have hc : qclamp ((1 : ℚ) / 2500) = 1 / 2500 := by
    rw [qclamp, max_eq_left (by norm_num), min_eq_left (by norm_num)]
  constructor
  · have hr : roundQ3 ((1 : ℚ) / 2500) = 0 := by
      rw [roundQ3, roundHalfEven]
      norm_num [round_eq]
    rw [simulate_policy_change]
    show [((0 : ℤ), roundQ3 (qclamp ((1 : ℚ) / 2500)))] = [((0 : ℤ), (0 : ℚ))]
    rw [hc, hr]
  · rw [show ((fun x : ℚ => x) (1 / 2500)) = (1 : ℚ) / 2500 from rfl, hc]
    norm_num

/-- Witness for C1 at the concrete spike series. -/
theorem detect_emission_iff_witness :
    (∀ i, i < 8 →
      ((emitAt [5, 5, 5, 5, 5, 5, 5, 20] 7 2 i).isSome ↔
        (7 ≤ i + 1 ∧ Real.sqrt (winVar [5, 5, 5, 5, 5, 5, 5, 20] 7 i) ≠ 0 ∧
          ((2 : ℚ) : ℝ) <
            |((List.getD [5, 5, 5, 5, 5, 5, 5, 20] i 0 -
                winMean [5, 5, 5, 5, 5, 5, 5, 20] 7 i : ℚ) : ℝ) /
              Real.sqrt (winVar [5, 5, 5, 5, 5, 5, 5, 20] 7 i)|)))
    ∧ (∀ i r, emitAt [5, 5, 5, 5, 5, 5, 5, 20] 7 2 i = some r →
        r = (List.getD [5, 5, 5, 5, 5, 5, 5, 20] i 0,
          List.getD [5, 5, 5, 5, 5, 5, 5, 20] i 0 - winMean [5, 5, 5, 5, 5, 5, 5, 20] 7 i,
          winVar [5, 5, 5, 5, 5, 5, 5, 20] 7 i))
    ∧ (∀ p, p ∈ detect_drift_zscore [0, 1, 2, 3, 4, 5, 6, 7] [5, 5, 5, 5, 5, 5, 5, 20] 7 2 ↔
        ∃ i, i < 8 ∧
          emitAt [5, 5, 5, 5, 5, 5, 5, 20] 7 2 i = some (p.value, p.zNum, p.zVar) ∧
          p.date = List.getD [0, 1, 2, 3, 4, 5, 6, 7] i 0) :=
  detect_emission_iff_zscore_gt_threshold [0, 1, 2, 3, 4, 5, 6, 7]
    [5, 5, 5, 5, 5, 5, 5, 20] 7 2 rfl (by decide) two_pos

/-- Witness for C2 at a length-1 series with window 3. -/
theorem detect_window_floor_witness :
    detect_drift_zscore [0] [3] 3 1 = [] ∧ emitAt [3] 3 1 0 = none :=
  ⟨(detect_window_floor [0] [3] 3 1).1 (by decide),
   (detect_window_floor [0] [3] 3 1).2 0 (by decide)⟩

/-- Witness for C3 at a constant series of three 5s. -/
theorem detect_constant_series_witness :
    detect_drift_zscore [0, 1, 2] [5, 5, 5] 2 2 = []
    ∧ detect_drift_zscoreE [0, 1, 2] [5, 5, 5] ((2 : ℕ) : ℤ) 2 = .ok [] :=
  detect_constant_series_empty [0, 1, 2] [5, 5, 5] 2 2 5 (by simp) (by decide) two_pos

/-- Witness for C4 at the concrete date list `[0..7]`. -/
theorem detect_concrete_spike_witness :
    detect_drift_zscore [0, 1, 2, 3, 4, 5, 6, 7] [5, 5, 5, 5, 5, 5, 5, 20] 7 2 =
      [⟨List.getD [0, 1, 2, 3, 4, 5, 6, 7] 7 0, 20, 90 / 7, 1350 / 49⟩]
    ∧ (detect_drift_zscore [0, 1, 2, 3, 4, 5, 6, 7] [5, 5, 5, 5, 5, 5, 5, 20] 7 2).length = 1
    ∧ emitAt [5, 5, 5, 5, 5, 5, 5, 20] 7 2 6 = none
    ∧ winVar [5, 5, 5, 5, 5, 5, 5, 20] 7 6 = 0
    ∧ windowAt [5, 5, 5, 5, 5, 5, 5, 20] 7 7 = [5, 5, 5, 5, 5, 5, 20]
    ∧ winMean [5, 5, 5, 5, 5, 5, 5, 20] 7 7 = 50 / 7
    ∧ (2 : ℝ) < |((20 - 50 / 7 : ℚ) : ℝ) / Real.sqrt ((1350 / 49 : ℚ) : ℝ)| :=
  detect_concrete_spike_example [0, 1, 2, 3, 4, 5, 6, 7] rfl

/-- Witness for C5 at `values = [3, 5]`, `window = 7`. -/
theorem moving_average_witness :
    simple_moving_average [3, 5] 7 =
      (List.drop (List.length [(3 : ℚ), 5] - min 7 (List.length [(3 : ℚ), 5]))
        [(3 : ℚ), 5]).sum / ((min 7 (List.length [(3 : ℚ), 5]) : ℕ) : ℚ)
    ∧ (List.drop (List.length [(3 : ℚ), 5] - min 7 (List.length [(3 : ℚ), 5]))
        [(3 : ℚ), 5]).length = min 7 (List.length [(3 : ℚ), 5])
    ∧ simple_moving_average [3, 5] 7 = 4 :=
  moving_average_of_last_min_window [3, 5] 7 (by simp) (by decide)

/-- Witness for the amended C7 at concrete inputs. -/
theorem no_parameter_validation_witness :
    detect_drift_zscoreE [0] [3] ((1 : ℕ) : ℤ) 1 = .ok (detect_drift_zscore [0] [3] 1 1)
    ∧ forecast_risk [((0 : ℤ), (1 / 2 : ℚ))] 0 (fun _ => 1 / 100) = .ok []
    ∧ ([(3 : ℚ)] ≠ [] → detect_drift_zscoreE [0] [3] 0 1 = .error .zeroDivision)
    ∧ (∀ w : ℤ, w < 0 → detect_drift_zscoreE [0] [3] w 1 = .error .valueError) :=
  no_parameter_validation_in_code [0] [3] 1 1 [((0 : ℤ), (1 / 2 : ℚ))]
    (fun _ => 1 / 100) (by decide) rfl (by simp)

/-- Witness for C8 at a one-point history and horizon 3. -/
theorem forecast_witness :
    ∃ l : List (ℤ × ℚ),
      forecast_risk [((4 : ℤ), (1 / 2 : ℚ))] 3 (fun _ => 1 / 100) = .ok l
      ∧ l.length = 3
      ∧ ∀ k, k < 3 →
          (l.getD k (0, 0)).1 =
            (List.getLast [((4 : ℤ), (1 / 2 : ℚ))] (by simp)).1 + (k : ℤ) + 1
          ∧ 0 ≤ (l.getD k (0, 0)).2 ∧ (l.getD k (0, 0)).2 ≤ 1 :=
  forecast_length_dates_and_unit_range [((4 : ℤ), (1 / 2 : ℚ))] 3 (fun _ => 1 / 100)
    (by simp) (by decide)

/-- Witness for the amended C9 at a one-point forecast with a 10x
adjustment. -/
theorem simulate_witness :
    (simulate_policy_change [((0 : ℤ), (1 / 10 : ℚ))] (fun x => x * 10)).length =
      List.length [((0 : ℤ), (1 / 10 : ℚ))]
    ∧ ((simulate_policy_change [((0 : ℤ), (1 / 10 : ℚ))] (fun x => x * 10)).getD 0 (0, 0)).1 =
        (List.getD [((0 : ℤ), (1 / 10 : ℚ))] 0 (0, 0)).1
    ∧ ((simulate_policy_change [((0 : ℤ), (1 / 10 : ℚ))] (fun x => x * 10)).getD 0 (0, 0)).2 =
        roundQ3 (qclamp ((List.getD [((0 : ℤ), (1 / 10 : ℚ))] 0 (0, 0)).2 * 10))
    ∧ 0 ≤ ((simulate_policy_change [((0 : ℤ), (1 / 10 : ℚ))] (fun x => x * 10)).getD 0 (0, 0)).2
    ∧ ((simulate_policy_change [((0 : ℤ), (1 / 10 : ℚ))] (fun x => x * 10)).getD 0 (0, 0)).2 ≤ 1 :=
  ⟨(simulate_dates_values_and_clamp [((0 : ℤ), (1 / 10 : ℚ))] (fun x => x * 10)).1,
   (simulate_dates_values_and_clamp [((0 : ℤ), (1 / 10 : ℚ))] (fun x => x * 10)).2 0 (by decide)⟩

/-- Witness for C10 at the spike series with thresholds 2 and 1. -/
theorem threshold_monotone_witness :
    (detect_drift_zscore [0, 1, 2, 3, 4, 5, 6, 7] [5, 5, 5, 5, 5, 5, 5, 20] 7 2).Sublist
      (detect_drift_zscore [0, 1, 2, 3, 4, 5, 6, 7] [5, 5, 5, 5, 5, 5, 5, 20] 7 1) :=
  detect_threshold_monotone [0, 1, 2, 3, 4, 5, 6, 7] [5, 5, 5, 5, 5, 5, 5, 20] 7 2 1
    (by decide) one_pos one_le_two
